import Mathlib

/-!
Verification of the Tildagon EMFight BLE scanner app (`src/app.py`).

The development shallowly embeds the parts of `app.py` that the claims are
about:

* `decode_name`   — `EMFightApp._decode_name`: TLV scan over the raw
  advertising payload.  Payload bytes are modelled as `List Nat` (each
  element a byte value).  The Python method can raise (the final
  `bytes(...).decode("utf-8")` raises `UnicodeError` on invalid UTF-8), so
  the model returns `Except Unit (Option (List Nat))`: `.error ()` models a
  raised exception, `.ok none` models `return None`, and `.ok (some bs)`
  models returning the decoded string whose UTF-8 code units are `bs`
  (UTF-8 decoding is injective on byte strings, so a returned string is
  identified with its bytes).
* `utf8_check`    — MicroPython's `utf8_check`, which `bytes.decode("utf-8")
  runs when constructing a `str`: a structural continuation-byte check.
* `irq`           — `EMFightApp._irq`: the BLE event callback.
* `upsert`        — the membership-test-then-append step inlined in `_irq`
  (lines 32–37), factored out so registry claims can be stated about it.
* `do_scan`       — `EMFightApp._do_scan`: reset, radio bring-up (modelled
  as an `Except String Unit` environment outcome), the bounded wait loop,
  and the `try/except` status assignment.
* `cleanup_ble`   — `EMFightApp._cleanup_ble`, and `run_step`, one
  iteration of `EMFightApp.run`'s button handling.

Strings the app builds (`status`, the colon-joined address) are modelled as
Lean `String`.
-/

/-- Python slice `l[a:b]`: clamps at the ends, never raises. -/
def pySlice (l : List Nat) (a b : Nat) : List Nat :=
  (l.take b).drop a

/-- Python slice `s[:n]` on a string (used by `str(e)[:15]`). -/
def pyTruncate (s : String) (n : Nat) : String :=
  String.mk (s.toList.take n)

/-- MicroPython's `utf8_check` continuation-state loop (run by
`bytes.decode("utf-8")` when a `str` object is created): `need` counts the
continuation bytes (`0x80`–`0xBF`) still owed by the current multi-byte
sequence.  A lead byte `0xC0`–`0xDF` owes one, `0xE0`–`0xEF` two,
`0xF0`–`0xF7` three; bytes `0xF8` and above, stray continuation bytes, and
a sequence left unfinished at the end are rejected. -/
def utf8_check_from : Nat → List Nat → Bool
  | need, [] => need == 0
  | 0, c :: rest =>
    if c < 0x80 then utf8_check_from 0 rest
    else if c < 0xC0 then false
    else if c < 0xE0 then utf8_check_from 1 rest
    else if c < 0xF0 then utf8_check_from 2 rest
    else if c < 0xF8 then utf8_check_from 3 rest
    else false
  | need + 1, c :: rest =>
    if 0x80 ≤ c then (if c < 0xC0 then utf8_check_from need rest else false)
    else false

/-- A byte list is accepted by `bytes(...).decode("utf-8")` (no exception). -/
def utf8_check (l : List Nat) : Bool :=
  utf8_check_from 0 l

/-- The loop body of `_decode_name` (lines 48–57 of `app.py`):

    i = 0
    while i + 1 < len(adv_data):
        length = adv_data[i]
        if length == 0:
            break
        ad_type = adv_data[i + 1]
        if ad_type == 0x09:
            return bytes(adv_data[i + 2:i + 1 + length]).decode("utf-8")
        i += 1 + length
    return None

The loop index `i` strictly increases by `1 + length ≥ 2` per iteration and
the loop runs only while `i + 1 < len(adv_data)`, so `adv_data.length`
iterations always suffice; `gas` is that structural bound.  When `gas = 0`
is reached the invariant `adv.length ≤ gas + i` (established by
`decode_name` below and preserved by every step) forces `adv.length ≤ i`,
where the Python loop condition is false and the code returns `None` — the
fuel base case returns the same `.ok none`.  `decode_nameAux_fuel` below
proves the result is independent of the fuel whenever the invariant holds. -/
def decode_nameAux (adv : List Nat) : Nat → Nat → Except Unit (Option (List Nat))
  | 0, _ => Except.ok none
  | gas + 1, i =>
    if i + 1 < adv.length then
      if adv.getD i 0 = 0 then Except.ok none
      else if adv.getD (i + 1) 0 = 9 then
        if utf8_check (pySlice adv (i + 2) (i + 1 + adv.getD i 0)) then
          Except.ok (some (pySlice adv (i + 2) (i + 1 + adv.getD i 0)))
        else Except.error ()
      else decode_nameAux adv gas (i + 1 + adv.getD i 0)
    else Except.ok none

/-- `EMFightApp._decode_name`.  `.error ()` models a raised `UnicodeError`,
`.ok none` models `return None`, `.ok (some bs)` models returning the
string with UTF-8 bytes `bs`. -/
def decode_name (adv : List Nat) : Except Unit (Option (List Nat)) :=
  decode_nameAux adv adv.length 0

/-- The fuel does not matter as long as it covers the remaining buffer:
`decode_nameAux` computes the Python loop exactly. -/
theorem decode_nameAux_fuel (adv : List Nat) :
    ∀ gas gas' i, adv.length ≤ gas + i → adv.length ≤ gas' + i →
      decode_nameAux adv gas i = decode_nameAux adv gas' i := by
  intro gas
  induction gas with
  | zero =>
    intro gas' i h h'
    cases gas' with
    | zero => rfl
    | succ g =>
      simp only [decode_nameAux]
      rw [if_neg (by omega)]
  | succ g ih =>
    intro gas' i h h'
    cases gas' with
    | zero =>
      simp only [decode_nameAux]
      rw [if_neg (by omega)]
    | succ g' =>
      simp only [decode_nameAux]
      by_cases h1 : i + 1 < adv.length
      · rw [if_pos h1, if_pos h1]
        by_cases h2 : adv.getD i 0 = 0
        · rw [if_pos h2, if_pos h2]
        · rw [if_neg h2, if_neg h2]
          by_cases h3 : adv.getD (i + 1) 0 = 9
          · rw [if_pos h3, if_pos h3]
          · rw [if_neg h3, if_neg h3]
            exact ih g' (i + 1 + adv.getD i 0) (by omega) (by omega)
      · rw [if_neg h1, if_neg h1]

/-- The record-start offsets the `_decode_name` loop visits: offset `0`,
then past each record whose length byte is nonzero, whose type byte is in
bounds, and whose type is not `0x09` (a `0x09` record stops the scan by
returning). -/
inductive ScanReaches (adv : List Nat) : Nat → Prop
  | zero : ScanReaches adv 0
  | step {i : Nat} (h : ScanReaches adv i) (hlt : i + 1 < adv.length)
      (hlen : adv.getD i 0 ≠ 0) (htype : adv.getD (i + 1) 0 ≠ 9) :
      ScanReaches adv (i + 1 + adv.getD i 0)

theorem ScanReaches.zero_or_ge_two {adv : List Nat} {j : Nat}
    (h : ScanReaches adv j) : j = 0 ∨ 2 ≤ j := by
  cases h with
  | zero => exact Or.inl rfl
  | step h hlt hlen htype => right; omega

/-- Running the decoder from a reached offset computes the same result as
running it from the start. -/
theorem decode_name_from_reached {adv : List Nat} {i : Nat}
    (h : ScanReaches adv i) :
    decode_name adv = decode_nameAux adv (adv.length - i) i := by
  induction h with
  | zero =>
    unfold decode_name
    exact decode_nameAux_fuel adv adv.length (adv.length - 0) 0 (by omega) (by omega)
  | @step i h hlt hlen htype ih =>
    rw [ih]
    have hfuel : adv.length - i = (adv.length - i - 1) + 1 := by omega
    rw [hfuel]
    simp only [decode_nameAux]
    rw [if_pos hlt, if_neg hlen, if_neg htype]
    exact decode_nameAux_fuel adv _ _ _ (by omega) (by omega)

/-- Lowercase hexadecimal digit for a value below 16 (`"{:02x}"`). -/
def hexDigit (n : Nat) : Char :=
  if n < 10 then Char.ofNat (48 + n) else Char.ofNat (87 + n)

/-- Python `"{:02x}".format(b)` on a byte value `0 ≤ b < 256` (the elements
of a `bytes` object, the only values the app formats): two lowercase hex
digits, zero-padded. -/
def pyFormat02x (b : Nat) : String :=
  String.mk [hexDigit (b / 16), hexDigit (b % 16)]

/-- Line 30 of `app.py`:
`":".join("{:02x}".format(b) for b in bytes(addr))`. -/
def addr_str (addr : List Nat) : String :=
  String.intercalate ":" (addr.map pyFormat02x)

/-- Value of a lowercase hex digit character (for stating that the
rendering is invertible). -/
def hexCharVal (c : Char) : Nat :=
  if c.toNat < 97 then c.toNat - 48 else c.toNat - 87

/-- Byte value encoded by a two-character hex string. -/
def pairHexVal (s : String) : Nat :=
  match s.toList with
  | [c, d] => 16 * hexCharVal c + hexCharVal d
  | _ => 0

/-- Character class of the digits `"{:02x}"` may emit. -/
def isLowerHexDigit (c : Char) : Bool :=
  ("0123456789abcdef".toList).contains c

/-- One discovered device, the dict appended at lines 33–37 of `app.py`.
`name` is the UTF-8 byte string of the displayed name. -/
structure Beacon where
  name : List Nat
  rssi : Int
  addr : String
deriving DecidableEq

/-- The mutable fields of `EMFightApp` that the claims are about. -/
structure AppState where
  beacons : List Beacon
  status : String
  scan_requested : Bool
  scan_complete : Bool
deriving DecidableEq

/-- `EMFightApp.__init__` (lines 17–20). -/
def initState : AppState :=
  { beacons := [], status := "Press A to scan",
    scan_requested := false, scan_complete := false }

/-- The two BLE IRQ events the app handles: `_IRQ_SCAN_RESULT` with its
`(addr_type, addr, adv_type, rssi, adv_data)` tuple, and `_IRQ_SCAN_DONE`. -/
inductive BLEEvent where
  | scanResult (addr_type : Nat) (addr : List Nat) (adv_type : Nat)
      (rssi : Int) (adv_data : List Nat)
  | scanDone
deriving DecidableEq

/-- Python `self._decode_name(adv_data) or "?"`: both `None` and the empty
string are falsy, so both fall back to `"?"` (byte `0x3f`). -/
def name_or_qm : Option (List Nat) → List Nat
  | none => [63]
  | some bs => if bs.isEmpty then [63] else bs

/-- Lines 32–37 of `app.py`: if no beacon with this address is present,
append one (first discovery wins; nothing is refreshed on a repeat). -/
def upsert (l : List Beacon) (nm : List Nat) (rssi : Int) (addr : String) :
    List Beacon :=
  if l.any (fun b => b.addr == addr) then l
  else l ++ [{ name := nm, rssi := rssi, addr := addr }]

/-- `EMFightApp._irq` (lines 23–44).  On a scan result the whole handler
body runs inside `try/except`: if decoding the name raises, the handler
prints and leaves the state untouched.  On scan-done it sets the
completion flag. -/
def irq (st : AppState) (ev : BLEEvent) : AppState :=
  match ev with
  | BLEEvent.scanResult _ addr _ rssi adv =>
    match decode_name adv with
    | Except.error _ => st
    | Except.ok r =>
      { st with beacons := upsert st.beacons (name_or_qm r) rssi (addr_str addr) }
  | BLEEvent.scanDone => { st with scan_complete := true }

/-- `asyncio.sleep(0.1)` between polls of the wait loop, in milliseconds. -/
def pollIntervalMs : Nat := 100

/-- `timeout = 30` at line 118 of `app.py`. -/
def waitCeilingPolls : Nat := 30

/-- The wait loop at lines 119–121 of `app.py`:

    while not self.scan_complete and timeout > 0:
        await asyncio.sleep(0.1)
        timeout -= 1

`sched k` is the list of IRQ events the radio delivers during the `k`-th
sleep (the callback is the only writer of `scan_complete` and `beacons`
during the loop).  Returns the state after the loop together with the
number of sleeps performed. -/
def waitFrom (sched : Nat → List BLEEvent) : AppState → Nat → Nat → AppState × Nat
  | st, 0, _ => (st, 0)
  | st, t + 1, k =>
    if st.scan_complete then (st, 0)
    else
      let r := waitFrom sched ((sched k).foldl irq st) t (k + 1)
      (r.1, r.2 + 1)

/-- `EMFightApp._do_scan` (lines 83–128).  The radio bring-up (garbage
collection, `import bluetooth`, instance creation, `active(True)`, the
settle sleep, and `gap_scan`) is an interaction with the environment; its
outcome is the `radio` argument: `.ok ()` when activation and scan start
succeed, `.error e` when any of those statements raises an exception whose
`str` is `e`.  `pre` is the list of IRQ events delivered before the first
check of the wait loop; `sched` the events delivered during each sleep.
Returns the final state and the number of wait-loop sleeps. -/
def do_scan (st : AppState) (radio : Except String Unit) (pre : List BLEEvent)
    (sched : Nat → List BLEEvent) : AppState × Nat :=
  let st1 : AppState :=
    { st with status := "Init...", beacons := [], scan_complete := false }
  match radio with
  | Except.error e => ({ st1 with status := "Err: " ++ pyTruncate e 15 }, 0)
  | Except.ok _ =>
    let st2 := { st1 with status := "Scanning..." }
    let st3 := pre.foldl irq st2
    let r := waitFrom sched st3 waitCeilingPolls 0
    ({ r.1 with status := "Found " ++ toString r.1.beacons.length }, r.2)

/-- `EMFightApp._cleanup_ble` (lines 130–138).  `ble` is `self._ble`
(`none` when no handle was ever created); `teardown` is the outcome of the
`gap_scan(None); active(False)` pair.  The bare `except: pass` swallows
every exception, so the model returns `.ok ()` in every case; an
un-swallowed exception would be `.error`. -/
def cleanup_ble (ble : Option Unit) (teardown : Except String Unit) :
    Except String Unit :=
  match ble with
  | none => Except.ok ()
  | some _ =>
    match teardown with
    | Except.ok _ => Except.ok ()
    | Except.error _ => Except.ok ()

/-- One iteration of the button handling in `EMFightApp.run` (lines
61–81).  `cancel`, `up`, `down` are the pressed states read from
`button_states`; the remaining arguments parametrise a scan triggered in
this iteration.  Returns `.ok none` when the loop exits (the CANCEL
branch: cleanup, `minimise()`, `return`), `.ok (some st)` when it
continues with state `st`; a raised exception would be `.error`. -/
def run_step (st : AppState) (cancel up down : Bool) (ble : Option Unit)
    (teardown : Except String Unit) (radio : Except String Unit)
    (pre : List BLEEvent) (sched : Nat → List BLEEvent) :
    Except String (Option AppState) :=
  if cancel then
    match cleanup_ble ble teardown with
    | Except.error e => Except.error e
    | Except.ok _ => Except.ok none
  else
    let st1 := if up then { st with scan_requested := true } else st
    let st2 := if down then { st1 with beacons := [], status := "Cleared" } else st1
    if st2.scan_requested then
      Except.ok (some (do_scan { st2 with scan_requested := false } radio pre sched).1)
    else
      Except.ok (some st2)

/-- Helper for C2: when the scan never encounters a `0x09` type tag at a
visited offset, the loop returns `None` without raising — whether it ends
by a zero length byte, by running past the buffer, or by fuel reflecting
an exhausted buffer. -/
theorem decode_nameAux_no_name (adv : List Nat)
    (H : ∀ j, ScanReaches adv j → j + 1 < adv.length →
         adv.getD j 0 ≠ 0 → adv.getD (j + 1) 0 ≠ 9) :
    ∀ gas i, adv.length ≤ gas + i → ScanReaches adv i →
      decode_nameAux adv gas i = Except.ok none := by
  intro gas
  induction gas with
  | zero => intro i h hr; rfl
  | succ g ih =>
    intro i h hr
    simp only [decode_nameAux]
    by_cases h1 : i + 1 < adv.length
    · rw [if_pos h1]
      by_cases h2 : adv.getD i 0 = 0
      · rw [if_pos h2]
      · rw [if_neg h2, if_neg (H i hr h1 h2)]
        exact ih (i + 1 + adv.getD i 0) (by omega) (ScanReaches.step hr h1 h2 (H i hr h1 h2))
    · rw [if_neg h1]

/-- Claim C1: for every payload in which the sequential TLV scan reaches a
well-formed record with type tag `0x09` (nonzero one-byte length `L`, type
byte in bounds, `L - 1` payload bytes fully inside the buffer) whose
payload decodes as UTF-8, `_decode_name` returns exactly those `L - 1`
payload bytes interpreted as UTF-8 text. -/
theorem C1_decode_name_first_name_record (adv : List Nat) (i L : Nat)
    (hreach : ScanReaches adv i) (hlt : i + 1 < adv.length)
    (hL : adv.getD i 0 = L) (hL0 : L ≠ 0)
    (htype : adv.getD (i + 1) 0 = 9)
    (hfits : i + 1 + L ≤ adv.length)
    (hutf8 : utf8_check (pySlice adv (i + 2) (i + 1 + L)) = true) :
    decode_name adv = Except.ok (some (pySlice adv (i + 2) (i + 1 + L))) ∧
    (pySlice adv (i + 2) (i + 1 + L)).length = L - 1 := by
  subst hL
  constructor
  · rw [decode_name_from_reached hreach]
    have h : adv.length - i = (adv.length - i - 1) + 1 := by omega
    rw [h]
    simp only [decode_nameAux]
    rw [if_pos hlt, if_neg hL0, if_pos htype, if_pos hutf8]
  · simp only [pySlice, List.length_drop, List.length_take]
    omega

/-- Witness for C1: the payload `[3, 8, 0, 0, 2, 9, 65]` holds a non-name
record followed by a complete-local-name record with payload `"A"`; the
decoder returns exactly that byte. -/
theorem C1_witness :
    decode_name [3, 8, 0, 0, 2, 9, 65] = Except.ok (some [65]) ∧
    ([65] : List Nat).length = 1 :=
  C1_decode_name_first_name_record [3, 8, 0, 0, 2, 9, 65] 4 2
    (ScanReaches.step ScanReaches.zero (by decide) (by decide) (by decide))
    (by decide) (by decide) (by decide) (by decide) (by decide) (by decide)

/-- Counterexample for C2 as stated: `[5, 9, 65]` and `[5, 9, 255]` are
malformed payloads (their single record declares four payload bytes but
only one is present — a truncated record), yet `_decode_name` does not
return absence: Python's clamping slice hands the partial payload to
`decode`, which returns `"A"` for the first input and raises
`UnicodeError` for the second. -/
theorem C2_counterexample :
    decode_name [5, 9, 65] = Except.ok (some [65]) ∧
    decode_name [5, 9, 255] = Except.error () :=
  ⟨rfl, rfl⟩

/-- Claim C2 (amended): for every payload on which the sequential scan
never reaches a record with type tag `0x09` — it is stopped first by a
zero length byte, by the cursor running past the buffer end (a record
truncated in its header), or by exhausting the records — `_decode_name`
returns absence and never raises.  (The amendment excludes a `0x09` record
that is itself truncated: there the code returns the clamped partial
payload, or raises on invalid UTF-8, as `C2_counterexample` shows.) -/
theorem C2_no_name_record_yields_none (adv : List Nat)
    (H : ∀ j, ScanReaches adv j → j + 1 < adv.length →
         adv.getD j 0 ≠ 0 → adv.getD (j + 1) 0 ≠ 9) :
    decode_name adv = Except.ok none :=
  decode_nameAux_no_name adv H adv.length 0 (by omega) ScanReaches.zero

/-- Witness for the amended C2: `[0, 9, 65]` starts with a zero-length
record, so the scan halts at once and yields absence. -/
theorem C2_witness : decode_name [0, 9, 65] = Except.ok none :=
  C2_no_name_record_yields_none [0, 9, 65] (by
    intro j hr h1 h2
    rcases hr.zero_or_ge_two with h0 | hge
    · subst h0
      exact absurd (by decide) h2
    · have hlen : ([0, 9, 65] : List Nat).length = 3 := rfl
      omega)

/-- The membership test at line 32 of `app.py` checks exactly whether the
address is among the stored addresses. -/
theorem upsert_any_iff (l : List Beacon) (a : String) :
    (l.any fun b => b.addr == a) = true ↔ a ∈ l.map Beacon.addr := by
  simp [List.any_eq_true, List.mem_map]

theorem upsert_of_mem {l : List Beacon} {a : String} (nm : List Nat) (r : Int)
    (h : a ∈ l.map Beacon.addr) : upsert l nm r a = l := by
  unfold upsert
  rw [if_pos ((upsert_any_iff l a).2 h)]

theorem upsert_of_not_mem {l : List Beacon} {a : String} (nm : List Nat) (r : Int)
    (h : a ∉ l.map Beacon.addr) :
    upsert l nm r a = l ++ [{ name := nm, rssi := r, addr := a }] := by
  unfold upsert
  rw [if_neg (fun hc => h ((upsert_any_iff l a).1 hc))]

/-- Specification-side definition (from the spec's words "insertion order
equals first-discovery order"): the addresses of a discovery sequence with
later repetitions removed, first occurrences kept in order.  `seen` holds
the addresses already present. -/
def firstNew : List String → List String → List String
  | _, [] => []
  | seen, a :: rest =>
    if a ∈ seen then firstNew seen rest else a :: firstNew (a :: seen) rest

/-- First-occurrence deduplication of a list of addresses. -/
def firstDedup (xs : List String) : List String :=
  firstNew [] xs

/-- The registry obtained by replaying a sequence of discovery insertions
`(name, rssi, addr)` through the `_irq` insertion step, starting empty. -/
def upsert_fold (evs : List (List Nat × Int × String)) : List Beacon :=
  evs.foldl (fun acc e => upsert acc e.1 e.2.1 e.2.2) []

theorem firstNew_congr : ∀ (xs s1 s2 : List String),
    (∀ x, x ∈ s1 ↔ x ∈ s2) → firstNew s1 xs = firstNew s2 xs := by
  intro xs
  induction xs with
  | nil => intro s1 s2 h; rfl
  | cons a rest ih =>
    intro s1 s2 h
    simp only [firstNew]
    by_cases h1 : a ∈ s1
    · rw [if_pos h1, if_pos ((h a).1 h1)]
      exact ih s1 s2 h
    · rw [if_neg h1, if_neg (fun hc => h1 ((h a).2 hc))]
      congr 1
      apply ih
      intro x
      simp only [List.mem_cons]
      exact or_congr Iff.rfl (h x)

/-- Replaying discovery insertions from any registry appends exactly the
fresh addresses, in first-discovery order. -/
theorem upsert_foldl_addrs (evs : List (List Nat × Int × String)) :
    ∀ l : List Beacon,
      (evs.foldl (fun acc e => upsert acc e.1 e.2.1 e.2.2) l).map Beacon.addr
        = l.map Beacon.addr ++ firstNew (l.map Beacon.addr) (evs.map fun e => e.2.2) := by
  induction evs with
  | nil => intro l; simp [firstNew]
  | cons e rest ih =>
    intro l
    simp only [List.foldl_cons, List.map_cons, firstNew]
    by_cases hmem : e.2.2 ∈ l.map Beacon.addr
    · rw [if_pos hmem, upsert_of_mem e.1 e.2.1 hmem]
      exact ih l
    · rw [if_neg hmem, upsert_of_not_mem e.1 e.2.1 hmem]
      have hih := ih (l ++ [{ name := e.1, rssi := e.2.1, addr := e.2.2 }])
      rw [hih]
      simp only [List.map_append, List.map_cons, List.map_nil]
      rw [List.append_assoc]
      congr 1
      rw [List.singleton_append]
      congr 1
      apply firstNew_congr
      intro x
      simp [or_comm]

/-- Claim C3: an upsert whose address is already present is a no-op (the
existing entry, the length and the order are all retained); an upsert with
a fresh address appends exactly one entry at the end; and across any
sequence of upserts the stored addresses are the distinct event addresses
in first-discovery order (hence length grows by at most one per distinct
address). -/
theorem C3_upsert_registry (l : List Beacon) (nm : List Nat) (r : Int)
    (a : String) (evs : List (List Nat × Int × String)) :
    ((∃ b ∈ l, b.addr = a) → upsert l nm r a = l) ∧
    ((∀ b ∈ l, b.addr ≠ a) →
      upsert l nm r a = l ++ [{ name := nm, rssi := r, addr := a }]) ∧
    (upsert_fold evs).map Beacon.addr = firstDedup (evs.map fun e => e.2.2) ∧
    (upsert_fold evs).length = (firstDedup (evs.map fun e => e.2.2)).length := by
  have hfold : (upsert_fold evs).map Beacon.addr
      = firstDedup (evs.map fun e => e.2.2) := by
    have h := upsert_foldl_addrs evs []
    simpa [upsert_fold, firstDedup] using h
  refine ⟨?_, ?_, hfold, ?_⟩
  · rintro ⟨b, hb, he⟩
    exact upsert_of_mem nm r (List.mem_map.2 ⟨b, hb, he⟩)
  · intro h
    refine upsert_of_not_mem nm r ?_
    intro hc
    rcases List.mem_map.1 hc with ⟨b, hb, he⟩
    exact h b hb he
  · have h := congrArg List.length hfold
    simpa using h

/-- Witness for C3: a duplicate upsert keeps the first-seen name and rssi,
a fresh one appends, and the sequence `aa, bb, aa` yields the registry
`[aa, bb]`. -/
theorem C3_witness :
    upsert [{ name := [65], rssi := -40, addr := "aa" }] [66] (-50) "aa"
      = [{ name := [65], rssi := -40, addr := "aa" }] ∧
    upsert [{ name := [65], rssi := -40, addr := "aa" }] [66] (-50) "bb"
      = [{ name := [65], rssi := -40, addr := "aa" },
         { name := [66], rssi := -50, addr := "bb" }] ∧
    (upsert_fold [([65], -40, "aa"), ([66], -50, "bb"), ([67], -60, "aa")]).map Beacon.addr
      = firstDedup ["aa", "bb", "aa"] ∧
    (upsert_fold [([65], -40, "aa"), ([66], -50, "bb"), ([67], -60, "aa")]).length
      = (firstDedup ["aa", "bb", "aa"]).length := by
  refine ⟨?_, ?_, ?_, ?_⟩
  · exact (C3_upsert_registry [{ name := [65], rssi := -40, addr := "aa" }]
      [66] (-50) "aa" []).1 (by decide)
  · exact (C3_upsert_registry [{ name := [65], rssi := -40, addr := "aa" }]
      [66] (-50) "bb" []).2.1 (by decide)
  · exact (C3_upsert_registry [] [] 0 ""
      [([65], -40, "aa"), ([66], -50, "bb"), ([67], -60, "aa")]).2.2.1
  · exact (C3_upsert_registry [] [] 0 ""
      [([65], -40, "aa"), ([66], -50, "bb"), ([67], -60, "aa")]).2.2.2

/-- Claim C4: when radio activation and scan start succeed, the terminal
status is `Found n` (the spec's `Completed(n)`) where `n` is the registry
size at completion; with zero discovery events the status is `Found 0`;
and feeding discovery events for addresses `A`, `B`, `A` (each with a
valid name record, the duplicate with a different name and rssi) followed
by a scan-done event yields a registry of length 2 in order `[A, B]` and
status `Found 2`. -/
theorem C4_scan_end_to_end (st : AppState) (pre : List BLEEvent)
    (sched : Nat → List BLEEvent) :
    (do_scan st (Except.ok ()) pre sched).1.status
      = "Found " ++ toString (do_scan st (Except.ok ()) pre sched).1.beacons.length ∧
    (do_scan initState (Except.ok ()) [] (fun _ => [])).1.status = "Found 0" ∧
    (do_scan initState (Except.ok ())
        [BLEEvent.scanResult 0 [1, 2, 3, 4, 5, 6] 0 (-40) [2, 9, 65],
         BLEEvent.scanResult 0 [16, 32, 48, 64, 80, 96] 0 (-50) [2, 9, 66],
         BLEEvent.scanResult 0 [1, 2, 3, 4, 5, 6] 0 (-60) [2, 9, 67],
         BLEEvent.scanDone] (fun _ => [])).1.beacons.map Beacon.addr
      = ["01:02:03:04:05:06", "10:20:30:40:50:60"] ∧
    (do_scan initState (Except.ok ())
        [BLEEvent.scanResult 0 [1, 2, 3, 4, 5, 6] 0 (-40) [2, 9, 65],
         BLEEvent.scanResult 0 [16, 32, 48, 64, 80, 96] 0 (-50) [2, 9, 66],
         BLEEvent.scanResult 0 [1, 2, 3, 4, 5, 6] 0 (-60) [2, 9, 67],
         BLEEvent.scanDone] (fun _ => [])).1.beacons.length = 2 ∧
    (do_scan initState (Except.ok ())
        [BLEEvent.scanResult 0 [1, 2, 3, 4, 5, 6] 0 (-40) [2, 9, 65],
         BLEEvent.scanResult 0 [16, 32, 48, 64, 80, 96] 0 (-50) [2, 9, 66],
         BLEEvent.scanResult 0 [1, 2, 3, 4, 5, 6] 0 (-60) [2, 9, 67],
         BLEEvent.scanDone] (fun _ => [])).1.status = "Found 2" :=
  ⟨rfl, by decide, by decide, by decide, by decide⟩

/-- Every poll of the wait loop consumes one unit of `timeout`, so the
number of sleeps never exceeds the initial timeout. -/
theorem waitFrom_polls_le (sched : Nat → List BLEEvent) :
    ∀ t st k, (waitFrom sched st t k).2 ≤ t := by
  intro t
  induction t with
  | zero => intro st k; exact Nat.le_refl 0
  | succ n ih =>
    intro st k
    simp only [waitFrom]
    by_cases h : st.scan_complete = true
    · rw [if_pos h]
      exact Nat.zero_le _
    · rw [if_neg h]
      exact Nat.succ_le_succ (ih ((sched k).foldl irq st) (k + 1))

/-- Only a `scanDone` event sets the completion flag: the callback leaves
it unchanged on every discovery event. -/
theorem foldl_irq_scan_complete (evs : List BLEEvent) :
    ∀ st : AppState, BLEEvent.scanDone ∉ evs →
      (evs.foldl irq st).scan_complete = st.scan_complete := by
  induction evs with
  | nil => intro st h; rfl
  | cons e rest ih =>
    intro st h
    simp only [List.foldl_cons]
    rw [ih (irq st e) (fun hc => h (List.mem_cons_of_mem _ hc))]
    cases e with
    | scanResult a b c d f =>
      simp only [irq]
      cases hd : decode_name f with
      | error u => rfl
      | ok r => rfl
    | scanDone =>
      exact absurd (List.mem_cons_self _ _) h

/-- If the completion flag is false and no `scanDone` event is ever
delivered, the wait loop runs its full timeout. -/
theorem waitFrom_polls_eq_of_no_done (sched : Nat → List BLEEvent)
    (hsched : ∀ k, BLEEvent.scanDone ∉ sched k) :
    ∀ t st k, st.scan_complete = false → (waitFrom sched st t k).2 = t := by
  intro t
  induction t with
  | zero => intro st k h; rfl
  | succ n ih =>
    intro st k h
    simp only [waitFrom]
    rw [if_neg (by rw [h]; exact Bool.false_ne_true)]
    have hst2 : ((sched k).foldl irq st).scan_complete = false := by
      rw [foldl_irq_scan_complete (sched k) st (hsched k), h]
    show (waitFrom sched ((sched k).foldl irq st) n (k + 1)).2 + 1 = n + 1
    rw [ih ((sched k).foldl irq st) (k + 1) hst2]

/-- Claim C5: the wait loop terminates for every behaviour of the
completion flag — at most `waitCeilingPolls = 30` polls of one fixed
`pollIntervalMs = 100` ms interval each (the 3-second ceiling); when the
flag never becomes true it performs exactly 30 polls and still proceeds to
the `Found n` (Completed) status rather than failing. -/
theorem C5_wait_loop_bounded (st : AppState) (pre : List BLEEvent)
    (sched : Nat → List BLEEvent)
    (hpre : BLEEvent.scanDone ∉ pre)
    (hsched : ∀ k, BLEEvent.scanDone ∉ sched k) :
    (∀ st2 pre2 sched2,
      (do_scan st2 (Except.ok ()) pre2 sched2).2 ≤ waitCeilingPolls) ∧
    (do_scan st (Except.ok ()) pre sched).2 = waitCeilingPolls ∧
    (do_scan st (Except.ok ()) pre sched).2 * pollIntervalMs ≤ 3000 ∧
    (do_scan st (Except.ok ()) pre sched).1.status
      = "Found " ++ toString (do_scan st (Except.ok ()) pre sched).1.beacons.length := by
  have heq : (do_scan st (Except.ok ()) pre sched).2 = waitCeilingPolls := by
    apply waitFrom_polls_eq_of_no_done sched hsched
    rw [foldl_irq_scan_complete pre _ hpre]
  refine ⟨?_, heq, ?_, rfl⟩
  · intro st2 pre2 sched2
    exact waitFrom_polls_le sched2 waitCeilingPolls _ 0
  · rw [heq]
    decide

/-- Witness for C5: with no events delivered at all the scan performs
exactly the 30 polls of the ceiling and reports `Found 0`. -/
theorem C5_witness :
    (∀ st2 pre2 sched2,
      (do_scan st2 (Except.ok ()) pre2 sched2).2 ≤ waitCeilingPolls) ∧
    (do_scan initState (Except.ok ()) [] (fun _ => [])).2 = waitCeilingPolls ∧
    (do_scan initState (Except.ok ()) [] (fun _ => [])).2 * pollIntervalMs ≤ 3000 ∧
    (do_scan initState (Except.ok ()) [] (fun _ => [])).1.status
      = "Found "
        ++ toString (do_scan initState (Except.ok ()) [] (fun _ => [])).1.beacons.length :=
  C5_wait_loop_bounded initState [] (fun _ => [])
    (List.not_mem_nil _) (fun _ => List.not_mem_nil _)

/-- Claim C6: if radio activation or scan start raises, the attempt
aborts: the status is the `Err: ` (Failed) variant embedding the error
text truncated to at most 15 characters, the wait loop is skipped (zero
polls), the registry is left empty, and no exception propagates
(`do_scan` returns a plain state). -/
theorem C6_radio_failure_aborts (st : AppState) (e : String)
    (pre : List BLEEvent) (sched : Nat → List BLEEvent) :
    (do_scan st (Except.error e) pre sched).1.status = "Err: " ++ pyTruncate e 15 ∧
    (pyTruncate e 15).length ≤ 15 ∧
    (do_scan st (Except.error e) pre sched).1.beacons = [] ∧
    (do_scan st (Except.error e) pre sched).2 = 0 := by
  refine ⟨rfl, ?_, rfl, rfl⟩
  show (e.toList.take 15).length ≤ 15
  exact List.length_take_le 15 e.toList

/-- Claim C7: teardown never propagates an error, whatever the radio
handle state or the error raised inside it, and a cancel press always
exits the UI loop: the CANCEL branch tears down and then leaves the loop
unconditionally. -/
theorem C7_cancel_always_exits (ble : Option Unit) (td : Except String Unit)
    (st : AppState) (up down : Bool) (radio : Except String Unit)
    (pre : List BLEEvent) (sched : Nat → List BLEEvent) :
    cleanup_ble ble td = Except.ok () ∧
    run_step st true up down ble td radio pre sched = Except.ok none := by
  have h : cleanup_ble ble td = Except.ok () := by
    cases ble with
    | none => rfl
    | some u =>
      cases td with
      | ok u2 => rfl
      | error e2 => rfl
  refine ⟨h, ?_⟩
  unfold run_step
  rw [if_pos rfl, h]

/-- The sixteen digits `"{:x}"` can emit are lowercase hex digits and
decode back to their value. -/
theorem hexDigit_props : ∀ n < 16,
    isLowerHexDigit (hexDigit n) = true ∧ hexCharVal (hexDigit n) = n := by
  decide

/-- Claim C8: for every discovery event the stored beacon address is the
canonical rendering of the raw address bytes — whenever the handler
appends an entry, its `addr` field is `addr_str addr`, which joins with
single colons, in the original byte order, one two-character chunk per
byte; and each chunk is exactly two lowercase hexadecimal digits encoding
that byte's value. -/
theorem C8_address_canonical (st : AppState) (a_type adv_type : Nat)
    (rssi : Int) (adv : List Nat) (addr : List Nat)
    (hbytes : ∀ b ∈ addr, b < 256) :
    (∃ nm, (irq st (BLEEvent.scanResult a_type addr adv_type rssi adv)).beacons
        = st.beacons
      ∨ (irq st (BLEEvent.scanResult a_type addr adv_type rssi adv)).beacons
        = st.beacons ++ [{ name := nm, rssi := rssi, addr := addr_str addr }]) ∧
    addr_str addr = String.intercalate ":" (addr.map pyFormat02x) ∧
    (∀ b ∈ addr, (pyFormat02x b).length = 2
      ∧ (∀ c ∈ (pyFormat02x b).toList, isLowerHexDigit c = true)
      ∧ pairHexVal (pyFormat02x b) = b) := by
  refine ⟨?_, rfl, ?_⟩
  · cases hd : decode_name adv with
    | error u =>
      refine ⟨[], Or.inl ?_⟩
      simp only [irq]
      rw [hd]
    | ok r =>
      refine ⟨name_or_qm r, ?_⟩
      simp only [irq]
      rw [hd]
      unfold upsert
      by_cases hmem : (st.beacons.any fun b => b.addr == addr_str addr) = true
      · left
        simp [hmem]
      · right
        simp [hmem]
  · intro b hb
    have h256 := hbytes b hb
    have hdiv : b / 16 < 16 := by omega
    have hmod : b % 16 < 16 := by omega
    have h1 := hexDigit_props (b / 16) hdiv
    have h2 := hexDigit_props (b % 16) hmod
    refine ⟨rfl, ?_, ?_⟩
    · intro c hc
      have : c = hexDigit (b / 16) ∨ c = hexDigit (b % 16) := by
        simpa [pyFormat02x] using hc
      rcases this with h | h
      · rw [h]; exact h1.1
      · rw [h]; exact h2.1
    · show 16 * hexCharVal (hexDigit (b / 16)) + hexCharVal (hexDigit (b % 16)) = b
      rw [h1.2, h2.2]
      omega

/-- Witness for C8: a concrete three-byte address, including a byte below
16 (zero-padded) and `255`. -/
theorem C8_witness :
    (∃ nm, (irq initState (BLEEvent.scanResult 0 [0, 171, 255] 0 (-40) [2, 9, 65])).beacons
        = initState.beacons
      ∨ (irq initState (BLEEvent.scanResult 0 [0, 171, 255] 0 (-40) [2, 9, 65])).beacons
        = initState.beacons
          ++ [{ name := nm, rssi := -40, addr := addr_str [0, 171, 255] }]) ∧
    addr_str [0, 171, 255] = String.intercalate ":" ([0, 171, 255].map pyFormat02x) ∧
    (∀ b ∈ ([0, 171, 255] : List Nat), (pyFormat02x b).length = 2
      ∧ (∀ c ∈ (pyFormat02x b).toList, isLowerHexDigit c = true)
      ∧ pairHexVal (pyFormat02x b) = b) :=
  C8_address_canonical initState 0 0 (-40) [2, 9, 65] [0, 171, 255] (by decide)

/-- Claim C9: handling of one discovery event is atomic — if decoding the
advertisement raises, the whole state (beacon list and completion flag) is
exactly as before the event; no partial entry is appended. -/
theorem C9_discovery_atomic (st : AppState) (a_type adv_type : Nat)
    (addr : List Nat) (rssi : Int) (adv : List Nat)
    (h : decode_name adv = Except.error ()) :
    irq st (BLEEvent.scanResult a_type addr adv_type rssi adv) = st := by
  simp only [irq]
  rw [h]

/-- Witness for C9: `[2, 9, 255]` is a name record whose payload is not
UTF-8, so decoding raises and the handler leaves the state untouched. -/
theorem C9_witness :
    decode_name [2, 9, 255] = Except.error () ∧
    irq initState (BLEEvent.scanResult 0 [1] 0 (-40) [2, 9, 255]) = initState :=
  ⟨rfl, C9_discovery_atomic initState 0 0 [1] (-40) [2, 9, 255] rfl⟩

/-- Claim C10: `_do_scan` resets the completion flag before scanning, so a
leftover completion signal from an earlier scan never affects the new
attempt (the run is invariant in the incoming flag), and the wait loop
exits before the ceiling only if a scan-done event is delivered after the
reset. -/
theorem C10_flag_reset (st : AppState) (b : Bool) (pre : List BLEEvent)
    (sched : Nat → List BLEEvent) :
    do_scan { st with scan_complete := b } (Except.ok ()) pre sched
      = do_scan st (Except.ok ()) pre sched ∧
    ((do_scan st (Except.ok ()) pre sched).2 < waitCeilingPolls →
      BLEEvent.scanDone ∈ pre ∨ ∃ k, BLEEvent.scanDone ∈ sched k) := by
  constructor
  · rfl
  · intro hlt
    by_contra hc
    push_neg at hc
    obtain ⟨h1, h2⟩ := hc
    have heq : (do_scan st (Except.ok ()) pre sched).2 = waitCeilingPolls := by
      apply waitFrom_polls_eq_of_no_done sched h2
      rw [foldl_irq_scan_complete pre _ h1]
    omega

/-- Witness for C10: a stale true flag plus a scan-done delivered before
the first poll — the run equals the one from a clean state, and the early
exit is explained by the delivered scan-done event. -/
theorem C10_witness :
    do_scan { initState with scan_complete := true } (Except.ok ())
        [BLEEvent.scanDone] (fun _ => [])
      = do_scan initState (Except.ok ()) [BLEEvent.scanDone] (fun _ => []) ∧
    (BLEEvent.scanDone ∈ [BLEEvent.scanDone]
      ∨ ∃ k : Nat, BLEEvent.scanDone ∈ (fun _ : Nat => ([] : List BLEEvent)) k) :=
  ⟨(C10_flag_reset initState true [BLEEvent.scanDone] (fun _ => [])).1,
   (C10_flag_reset initState true [BLEEvent.scanDone] (fun _ => [])).2 (by decide)⟩
